import Mathlib

/-!
Verification of the rock-paper-scissors strategy-guide scorer (`src/main.rs`).

The Rust source is embedded shallowly: each Rust item becomes a Lean
definition with the same control flow. Strings are modelled as lists of
`Char` (a Rust `char` is a Unicode scalar value, as is a Lean `Char`);
`Result<T, &str>` becomes `Except String T`; the process's observable
behaviour (stdout lines, stderr lines, exit status) is collected in a
record.
-/

/- ----- Game Logic: hands and rankings (main.rs lines 3-18) ----- -/

inductive Hand where
  | Rock
  | Paper
  | Scissors
deriving DecidableEq, Fintype

/-- Rust `Hand::beats`: the hand that `self` defeats. -/
def Hand.beats : Hand → Hand
  | Hand.Rock => Hand.Scissors
  | Hand.Paper => Hand.Rock
  | Hand.Scissors => Hand.Paper

/- ----- Game Logic: points data (main.rs lines 22-32) ----- -/

/-- First summand of Rust `score`: the `match me` block giving shape points. -/
def shape_points : Hand → Nat
  | Hand.Rock => 1
  | Hand.Paper => 2
  | Hand.Scissors => 3

/-- Second summand of Rust `score`: the guarded `match ()` block giving
outcome points (checked in source order: lose, then draw, then win). -/
def outcome_points (opponent me : Hand) : Nat :=
  if opponent.beats = me then 0
  else if opponent = me then 3
  else 6

/-- Rust `score(opponent, me)`: sum of the two match blocks. -/
def score (opponent me : Hand) : Nat :=
  shape_points me + outcome_points opponent me

/- ----- Game Logic: part 2 extension (main.rs lines 36-48) ----- -/

inductive Outcome where
  | Lose
  | Draw
  | Win
deriving DecidableEq, Fintype

/-- Rust `pick_strategy(opponent, outcome)`. -/
def pick_strategy (opponent : Hand) (outcome : Outcome) : Hand :=
  match outcome with
  | Outcome.Draw => opponent
  | Outcome.Lose => opponent.beats
  | Outcome.Win => opponent.beats.beats

/- ----- Theorems: C1, C3, C8, C9 ----- -/

/-- C1: `score` realises exactly the nine-entry table
(Rock/Rock=4, Rock/Paper=8, Rock/Scissors=3, Paper/Rock=1, Paper/Paper=5,
Paper/Scissors=9, Scissors/Rock=7, Scissors/Paper=2, Scissors/Scissors=6);
every result lies in [1,9], and the nine results are pairwise distinct,
hence a bijection onto {1,...,9}. -/
theorem score_table_and_bijection :
    (score Hand.Rock Hand.Rock = 4 ∧ score Hand.Rock Hand.Paper = 8 ∧
     score Hand.Rock Hand.Scissors = 3 ∧ score Hand.Paper Hand.Rock = 1 ∧
     score Hand.Paper Hand.Paper = 5 ∧ score Hand.Paper Hand.Scissors = 9 ∧
     score Hand.Scissors Hand.Rock = 7 ∧ score Hand.Scissors Hand.Paper = 2 ∧
     score Hand.Scissors Hand.Scissors = 6) ∧
    (∀ opponent me : Hand, 1 ≤ score opponent me ∧ score opponent me ≤ 9) ∧
    ([score Hand.Rock Hand.Rock, score Hand.Rock Hand.Paper,
      score Hand.Rock Hand.Scissors, score Hand.Paper Hand.Rock,
      score Hand.Paper Hand.Paper, score Hand.Paper Hand.Scissors,
      score Hand.Scissors Hand.Rock, score Hand.Scissors Hand.Paper,
      score Hand.Scissors Hand.Scissors].Nodup) := by
  refine ⟨by decide, ?_, by decide⟩
  intro opponent me
  cases opponent <;> cases me <;> simp [score, shape_points, outcome_points, Hand.beats]

/-- C1 witness: the range invariant evaluated at a concrete pair. -/
theorem score_table_and_bijection_witness :
    1 ≤ score Hand.Rock Hand.Paper ∧ score Hand.Rock Hand.Paper ≤ 9 :=
  score_table_and_bijection.2.1 Hand.Rock Hand.Paper

/-- C3: playing `pick_strategy opponent outcome` against `opponent` yields
exactly `outcome`: the outcome-points component of the score is 0 for Lose,
3 for Draw, and 6 for Win. -/
theorem pick_strategy_achieves_outcome :
    ∀ (opponent : Hand) (outcome : Outcome),
      outcome_points opponent (pick_strategy opponent outcome) =
        (match outcome with
         | Outcome.Lose => 0
         | Outcome.Draw => 3
         | Outcome.Win => 6) := by
  decide

/-- C8: the beats-relation is a 3-cycle with no fixed point, the loss and
draw predicates used by `score` are never simultaneously true, and swapping
the evaluation order of the scoring branches leaves `score` unchanged. -/
theorem beats_cycle_and_branch_order :
    (∀ h : Hand, h.beats.beats.beats = h ∧ h.beats ≠ h) ∧
    (∀ opponent me : Hand, ¬(opponent.beats = me ∧ opponent = me)) ∧
    (∀ opponent me : Hand,
      score opponent me =
        shape_points me +
          (if opponent = me then 3 else if opponent.beats = me then 0 else 6)) := by
  refine ⟨by decide, by decide, ?_⟩
  intro opponent me
  cases opponent <;> cases me <;> rfl

/-- C8 witness: no-fixed-point fact evaluated at Rock. -/
theorem beats_cycle_and_branch_order_witness : Hand.Rock.beats ≠ Hand.Rock :=
  (beats_cycle_and_branch_order.1 Hand.Rock).2

/-- C9: for each opponent, `pick_strategy opponent` sends the three Outcomes
to three pairwise distinct Hands and hits every Hand: a bijection from
Outcome to Hand. -/
theorem pick_strategy_bijective :
    ∀ opponent : Hand,
      ([pick_strategy opponent Outcome.Lose, pick_strategy opponent Outcome.Draw,
        pick_strategy opponent Outcome.Win].Nodup) ∧
      (∀ h : Hand,
        h ∈ [pick_strategy opponent Outcome.Lose, pick_strategy opponent Outcome.Draw,
             pick_strategy opponent Outcome.Win]) := by
  decide

/-- C9 witness: Rock is reached by some strategy against a Rock opponent. -/
theorem pick_strategy_bijective_witness :
    Hand.Rock ∈ [pick_strategy Hand.Rock Outcome.Lose,
                 pick_strategy Hand.Rock Outcome.Draw,
                 pick_strategy Hand.Rock Outcome.Win] :=
  (pick_strategy_bijective Hand.Rock).2 Hand.Rock

/- ----- Parsing (main.rs lines 52-129) ----- -/

inductive Column1 where
  | A
  | B
  | C
deriving DecidableEq, Fintype

/-- Rust `TryFrom<char> for Column1`. -/
def Column1.tryFromChar (c : Char) : Except String Column1 :=
  if c = 'A' then Except.ok Column1.A
  else if c = 'B' then Except.ok Column1.B
  else if c = 'C' then Except.ok Column1.C
  else Except.error "Invalid char"

inductive Column2 where
  | X
  | Y
  | Z
deriving DecidableEq, Fintype

/-- Rust `TryFrom<char> for Column2`. -/
def Column2.tryFromChar (c : Char) : Except String Column2 :=
  if c = 'X' then Except.ok Column2.X
  else if c = 'Y' then Except.ok Column2.Y
  else if c = 'Z' then Except.ok Column2.Z
  else Except.error "Invalid char"

/-- Rust `From<Column1> for Hand`. -/
def Hand.ofColumn1 : Column1 → Hand
  | Column1.A => Hand.Rock
  | Column1.B => Hand.Paper
  | Column1.C => Hand.Scissors

/-- Rust `From<Column2> for Hand`. -/
def Hand.ofColumn2 : Column2 → Hand
  | Column2.X => Hand.Rock
  | Column2.Y => Hand.Paper
  | Column2.Z => Hand.Scissors

/-- Rust `parse_line`, on the line's character sequence. The Rust function
pulls characters off an iterator one at a time: first char through
`Column1::try_from` (`?` propagates its error), second char filtered to be
a space, third char through `Column2::try_from`, then the iterator must be
exhausted. -/
def parse_line (line : List Char) : Except String (Column1 × Column2) :=
  match line with
  | [] => Except.error "Missing column 1 char"
  | c1 :: rest1 =>
    match Column1.tryFromChar c1 with
    | Except.error e => Except.error e
    | Except.ok col1 =>
      match rest1 with
      | [] => Except.error "Invalid or missing space delimiter"
      | d :: rest2 =>
        if d = ' ' then
          match rest2 with
          | [] => Except.error "Missing column 2 char"
          | c2 :: rest3 =>
            match Column2.tryFromChar c2 with
            | Except.error e => Except.error e
            | Except.ok col2 =>
              match rest3 with
              | [] => Except.ok (col1, col2)
              | _ :: _ => Except.error "Unexpected trailing chars"
        else Except.error "Invalid or missing space delimiter"

/- ----- Theorem: C2 ----- -/

/-- C2: `parse_line` succeeds exactly on three-character lines
`[c1, ' ', c2]` with `c1 ∈ {A,B,C}` and `c2 ∈ {X,Y,Z}`, returning the two
encoded column codes; on failure it reports the leftmost violated
condition: missing or invalid column-1 char, then invalid or missing space
delimiter, then missing or invalid column-2 char, then trailing content. -/
theorem parse_line_correct (line : List Char) :
    ((∃ v, parse_line line = Except.ok v) ↔
      ∃ a b c1 c2, line = [a, ' ', b] ∧
        Column1.tryFromChar a = Except.ok c1 ∧
        Column2.tryFromChar b = Except.ok c2) ∧
    (∀ a, (∃ c1, Column1.tryFromChar a = Except.ok c1) ↔ a = 'A' ∨ a = 'B' ∨ a = 'C') ∧
    (∀ b, (∃ c2, Column2.tryFromChar b = Except.ok c2) ↔ b = 'X' ∨ b = 'Y' ∨ b = 'Z') ∧
    (∀ a b c1 c2, Column1.tryFromChar a = Except.ok c1 →
      Column2.tryFromChar b = Except.ok c2 →
      parse_line [a, ' ', b] = Except.ok (c1, c2)) ∧
    (line = [] → parse_line line = Except.error "Missing column 1 char") ∧
    (∀ a rest, line = a :: rest → Column1.tryFromChar a = Except.error "Invalid char" →
      parse_line line = Except.error "Invalid char") ∧
    (∀ a c1, line = [a] → Column1.tryFromChar a = Except.ok c1 →
      parse_line line = Except.error "Invalid or missing space delimiter") ∧
    (∀ a c1 d rest, line = a :: d :: rest → Column1.tryFromChar a = Except.ok c1 →
      d ≠ ' ' → parse_line line = Except.error "Invalid or missing space delimiter") ∧
    (∀ a c1, line = [a, ' '] → Column1.tryFromChar a = Except.ok c1 →
      parse_line line = Except.error "Missing column 2 char") ∧
    (∀ a c1 b rest, line = a :: ' ' :: b :: rest →
      Column1.tryFromChar a = Except.ok c1 →
      Column2.tryFromChar b = Except.error "Invalid char" →
      parse_line line = Except.error "Invalid char") ∧
    (∀ a c1 b c2 rest, line = a :: ' ' :: b :: rest →
      Column1.tryFromChar a = Except.ok c1 →
      Column2.tryFromChar b = Except.ok c2 → rest ≠ [] →
      parse_line line = Except.error "Unexpected trailing chars") := by
  refine ⟨?_, ?_, ?_, ?_, ?_, ?_, ?_, ?_, ?_, ?_, ?_⟩
  · constructor
    · rintro ⟨⟨col1, col2⟩, hv⟩
      match hline : line with
      | [] => simp [parse_line] at hv
      | a :: rest1 =>
        match h1 : Column1.tryFromChar a with
        | Except.error e => simp [parse_line, h1] at hv
        | Except.ok c1 =>
          match rest1 with
          | [] => simp [parse_line, h1] at hv
          | d :: rest2 =>
            by_cases hd : d = ' '
            · subst hd
              match rest2 with
              | [] => simp [parse_line, h1] at hv
              | b :: rest3 =>
                match h2 : Column2.tryFromChar b with
                | Except.error e => simp [parse_line, h1, h2] at hv
                | Except.ok c2 =>
                  match rest3 with
                  | [] => exact ⟨a, b, c1, c2, rfl, h1, h2⟩
                  | _ :: _ => simp [parse_line, h1, h2] at hv
            · simp [parse_line, h1, hd] at hv
    · rintro ⟨a, b, c1, c2, hline, h1, h2⟩
      subst hline
      exact ⟨(c1, c2), by simp [parse_line, h1, h2]⟩
  · intro a
    constructor
    · rintro ⟨c1, h⟩
      by_cases hA : a = 'A'
      · exact Or.inl hA
      by_cases hB : a = 'B'
      · exact Or.inr (Or.inl hB)
      by_cases hC : a = 'C'
      · exact Or.inr (Or.inr hC)
      · simp [Column1.tryFromChar, hA, hB, hC] at h
    · rintro (h | h | h) <;> subst h <;> exact ⟨_, rfl⟩
  · intro b
    constructor
    · rintro ⟨c2, h⟩
      by_cases hX : b = 'X'
      · exact Or.inl hX
      by_cases hY : b = 'Y'
      · exact Or.inr (Or.inl hY)
      by_cases hZ : b = 'Z'
      · exact Or.inr (Or.inr hZ)
      · simp [Column2.tryFromChar, hX, hY, hZ] at h
    · rintro (h | h | h) <;> subst h <;> exact ⟨_, rfl⟩
  · intro a b c1 c2 h1 h2
    simp [parse_line, h1, h2]
  · intro h; subst h; rfl
  · intro a rest hline h1
    subst hline
    simp only [parse_line, h1]
  · intro a c1 hline h1
    subst hline
    simp [parse_line, h1]
  · intro a c1 d rest hline h1 hd
    subst hline
    simp [parse_line, h1, hd]
  · intro a c1 hline h1
    subst hline
    simp [parse_line, h1]
  · intro a c1 b rest hline h1 h2
    subst hline
    simp [parse_line, h1, h2]
  · intro a c1 b c2 rest hline h1 h2 hrest
    subst hline
    match rest with
    | [] => exact absurd rfl hrest
    | _ :: _ => simp [parse_line, h1, h2]

/-- C2 witness: the round-trip clause at the concrete line `A X`. -/
theorem parse_line_correct_witness :
    parse_line ['A', ' ', 'X'] = Except.ok (Column1.A, Column2.X) :=
  (parse_line_correct ['A', ' ', 'X']).2.2.2.1 'A' 'X' Column1.A Column2.X rfl rfl

/- ----- Parsing: part 2 extension (main.rs lines 133-141) ----- -/

/-- Rust `From<Column2> for Outcome`. -/
def Outcome.fromColumn2 : Column2 → Outcome
  | Column2.X => Outcome.Lose
  | Column2.Y => Outcome.Draw
  | Column2.Z => Outcome.Win

/- ----- Runner (main.rs lines 145-190) ----- -/

/-- Rust `part1_game`. -/
def part1_game (t : Column1 × Column2) : Nat :=
  score (Hand.ofColumn1 t.1) (Hand.ofColumn2 t.2)

/-- Rust `part2_game`. -/
def part2_game (t : Column1 × Column2) : Nat :=
  score (Hand.ofColumn1 t.1) (pick_strategy (Hand.ofColumn1 t.1) (Outcome.fromColumn2 t.2))

/-- Splits a character sequence at every newline character, keeping empty
segments: the segments between (and around) the occurrences of a newline.
Building block for the model of Rust `str::lines`. -/
def splitOnNewline : List Char → List (List Char)
  | [] => [[]]
  | c :: rest =>
    if c = '\n' then [] :: splitOnNewline rest
    else
      match splitOnNewline rest with
      | [] => [[c]]
      | l :: ls => (c :: l) :: ls

/-- Strips one trailing carriage return, as Rust `str::lines` does on each
newline-terminated segment. -/
def stripCR (l : List Char) : List Char :=
  match l.getLast? with
  | some '\r' => l.dropLast
  | _ => l

/-- Model of Rust `str::lines`: every segment except the last was terminated
by a newline and has a trailing carriage return stripped; a final empty
segment (arising from a terminating newline, or from empty input) is not
yielded, while a final non-empty segment is yielded unchanged. -/
def rustLines (s : List Char) : List (List Char) :=
  (splitOnNewline s).dropLast.map stripCR ++
    match (splitOnNewline s).getLast? with
    | some [] => []
    | some l => [l]
    | none => []

/-- The diagnostic emitted by Rust `run`'s `filter_map` closure:
`eprintln!("Parsing error on line \x7b\x7d: \x7b\x7d", n + 1, err)`. -/
def parseDiag (n : Nat) (e : String) : String :=
  "Parsing error on line " ++ toString n ++ ": " ++ e

/-- The consumption of Rust `run`'s `strategies.map(game).sum()` pipeline:
lines are enumerated (`n` is the enumeration index of the first line of
`ls`), each is parsed, a failure logs a diagnostic to stderr and is
skipped, and each success is scored with `game` and summed. Returns the
sum and the emitted diagnostics in order. -/
def processLines (game : Column1 × Column2 → Nat) (n : Nat) :
    List (List Char) → Nat × List String
  | [] => (0, [])
  | l :: ls =>
    match parse_line l with
    | Except.ok t =>
      let r := processLines game (n + 1) ls
      (game t + r.1, r.2)
    | Except.error e =>
      let r := processLines game (n + 1) ls
      (r.1, parseDiag (n + 1) e :: r.2)

/-- Rust `run`, with stdin replaced by its contents and stderr made
explicit: returns the `Result<u32, String>` together with the diagnostics
printed to stderr. The lazy `strategies` iterator is consumed only in the
two `Ok` arms, so a malformed mode line never emits per-line diagnostics. -/
def run (input : List Char) : Except String Nat × List String :=
  match rustLines input with
  | [] => (Except.error "Missing data on first line", [])
  | part :: rest =>
    if part = "Part 1".toList then
      let r := processLines part1_game 0 rest
      (Except.ok r.1, r.2)
    else if part = "Part 2".toList then
      let r := processLines part2_game 0 rest
      (Except.ok r.1, r.2)
    else (Except.error "Malformed input", [])

/-- Observable behaviour of one process invocation: the lines printed to
stdout and stderr, and the exit status. -/
structure ProcessResult where
  stdout : List String
  stderr : List String
  exitCode : Nat
deriving DecidableEq

/-- Rust `main`: prints the score to stdout on `Ok`, the error to stderr on
`Err`. It returns `()` either way, so the process exit status is 0 in both
branches. -/
def mainRun (input : List Char) : ProcessResult :=
  match run input with
  | (Except.ok s, diags) => { stdout := [toString s], stderr := diags, exitCode := 0 }
  | (Except.error e, diags) => { stdout := [], stderr := diags ++ [e], exitCode := 0 }

/- ----- Theorems: C4, C5, C6, C7 ----- -/

/-- C4: on input `Part 2\nA Y\nB X\nC Z\n` the program succeeds and prints
exactly the total 12; the per-line Part-2 scores are 4, 1 and 7, each line
scored as `score (Hand col1) (pick_strategy (Hand col1) (Outcome col2))`
with column 2 read as X=Lose, Y=Draw, Z=Win. -/
theorem part2_scenario :
    mainRun ("Part 2\nA Y\nB X\nC Z\n".toList) =
      { stdout := ["12"], stderr := [], exitCode := 0 } ∧
    (∀ t : Column1 × Column2,
      part2_game t =
        score (Hand.ofColumn1 t.1)
          (pick_strategy (Hand.ofColumn1 t.1) (Outcome.fromColumn2 t.2))) ∧
    part2_game (Column1.A, Column2.Y) = 4 ∧
    part2_game (Column1.B, Column2.X) = 1 ∧
    part2_game (Column1.C, Column2.Z) = 7 ∧
    Outcome.fromColumn2 Column2.X = Outcome.Lose ∧
    Outcome.fromColumn2 Column2.Y = Outcome.Draw ∧
    Outcome.fromColumn2 Column2.Z = Outcome.Win :=
  ⟨rfl, fun _ => rfl, rfl, rfl, rfl, rfl, rfl, rfl⟩

/-- The pipeline consuming the `strategies` iterator equals the sum of the
per-line scores over the successfully parsed lines, paired with one
diagnostic per failing line carrying its 1-based index. -/
theorem processLines_eq (game : Column1 × Column2 → Nat) (n : Nat)
    (ls : List (List Char)) :
    processLines game n ls =
      (((ls.filterMap fun l => (parse_line l).toOption).map game).sum,
       (List.enumFrom n ls).filterMap fun p =>
         match parse_line p.2 with
         | Except.ok _ => none
         | Except.error e => some (parseDiag (p.1 + 1) e)) := by
  induction ls generalizing n with
  | nil => rfl
  | cons l ls ih =>
    cases h : parse_line l with
    | ok t =>
      simp [processLines, h, ih, List.enumFrom, Except.toOption]
    | error e =>
      simp [processLines, h, ih, List.enumFrom, Except.toOption]

/-- C5: a line that fails to parse is skipped, not fatal: the total is the
sum over only the successfully parsed lines and each failure contributes
one diagnostic with its 1-based index among the strategy lines; for input
`Part 1\nA Y\nQ Q\nB X\n` the program prints 9 with exactly one diagnostic
for line 2. -/
theorem failing_lines_skipped :
    (∀ (game : Column1 × Column2 → Nat) (ls : List (List Char)),
      processLines game 0 ls =
        (((ls.filterMap fun l => (parse_line l).toOption).map game).sum,
         ls.enum.filterMap fun p =>
           match parse_line p.2 with
           | Except.ok _ => none
           | Except.error e => some (parseDiag (p.1 + 1) e))) ∧
    mainRun ("Part 1\nA Y\nQ Q\nB X\n".toList) =
      { stdout := ["9"],
        stderr := ["Parsing error on line 2: Invalid char"],
        exitCode := 0 } :=
  ⟨fun game ls => processLines_eq game 0 ls, rfl⟩

/-- C6: whenever the first input line is not exactly `Part 1` or `Part 2`
(including when there is no first line at all), the run is fatal: nothing
is printed to stdout and an error message goes to stderr. -/
theorem bad_mode_line_is_fatal (input : List Char)
    (h : rustLines input = [] ∨
      ∃ first rest, rustLines input = first :: rest ∧
        first ≠ "Part 1".toList ∧ first ≠ "Part 2".toList) :
    (mainRun input).stdout = [] ∧ (mainRun input).stderr ≠ [] := by
  rcases h with h | ⟨first, rest, h, h1, h2⟩
  · simp [mainRun, run, h]
  · simp only [mainRun, run, h]
    rw [if_neg h1, if_neg h2]
    exact ⟨rfl, by simp⟩

/-- C6 witness: the fatal behaviour at the concrete input `Part 3\n`. -/
theorem bad_mode_line_is_fatal_witness :
    (mainRun ("Part 3\n".toList)).stdout = [] ∧
    (mainRun ("Part 3\n".toList)).stderr ≠ [] :=
  bad_mode_line_is_fatal ("Part 3\n".toList)
    (Or.inr ⟨"Part 3".toList, [], by decide, by decide, by decide⟩)

/-- C7 counterexample: on the fatal input `Part 3\n` (mode line neither
`Part 1` nor `Part 2`, so `run` returns an error) the process exit status
is still 0, not a failure status: `main` catches the error, prints it and
returns normally. -/
theorem exit_status_claim_fails :
    (run ("Part 3\n".toList)).1 = Except.error "Malformed input" ∧
    (mainRun ("Part 3\n".toList)).exitCode = 0 :=
  ⟨rfl, rfl⟩

/-- C7 amended: the process exit status is 0 on every input, fatal or not;
fatal runs are distinguished only by their output, not their status. -/
theorem exit_status_always_zero (input : List Char) :
    (mainRun input).exitCode = 0 := by
  rcases hr : run input with ⟨r, d⟩
  cases r <;> simp [mainRun, hr]

/- ----- Theorem: C10 ----- -/

theorem splitOnNewline_ne_nil (s : List Char) : splitOnNewline s ≠ [] := by
  cases s with
  | nil => simp [splitOnNewline]
  | cons c rest =>
    simp only [splitOnNewline]
    split
    · simp
    · split <;> simp

theorem splitOnNewline_cons_newline (rest : List Char) :
    splitOnNewline ('\n' :: rest) = [] :: splitOnNewline rest := by
  simp [splitOnNewline]

theorem splitOnNewline_cons_other (a : Char) (rest : List Char) (ha : a ≠ '\n')
    (x : List Char) (xs : List (List Char)) (hX : splitOnNewline rest = x :: xs) :
    splitOnNewline (a :: rest) = (a :: x) :: xs := by
  simp [splitOnNewline, ha, hX]

/-- Appending a terminating newline adds exactly one empty final segment to
the raw split. -/
theorem splitOnNewline_append_newline (s : List Char) :
    splitOnNewline (s ++ ['\n']) = splitOnNewline s ++ [[]] := by
  induction s with
  | nil => rfl
  | cons c rest ih =>
    by_cases hc : c = '\n'
    · subst hc
      rw [List.cons_append, splitOnNewline_cons_newline, splitOnNewline_cons_newline, ih]
      rfl
    · cases h : splitOnNewline rest with
      | nil => exact absurd h (splitOnNewline_ne_nil rest)
      | cons l ls =>
        rw [List.cons_append,
          splitOnNewline_cons_other c (rest ++ ['\n']) hc l (ls ++ [[]]) (by rw [ih, h]; rfl),
          splitOnNewline_cons_other c rest hc l ls h]
        rfl

/-- The raw split of a sequence ending in a non-newline character ends in a
segment that itself ends in that character. -/
theorem splitOnNewline_getLast_append (s : List Char) (c : Char) (hc : c ≠ '\n') :
    ∃ seg, (splitOnNewline (s ++ [c])).getLast? = some (seg ++ [c]) := by
  induction s with
  | nil => exact ⟨[], by simp [splitOnNewline, hc]⟩
  | cons a rest ih =>
    obtain ⟨seg, hseg⟩ := ih
    by_cases ha : a = '\n'
    · subst ha
      refine ⟨seg, ?_⟩
      rw [List.cons_append, splitOnNewline_cons_newline]
      cases hX : splitOnNewline (rest ++ [c]) with
      | nil => exact absurd hX (splitOnNewline_ne_nil _)
      | cons x xs =>
        rw [hX] at hseg
        rw [List.getLast?_cons_cons]
        exact hseg
    · cases hX : splitOnNewline (rest ++ [c]) with
      | nil => exact absurd hX (splitOnNewline_ne_nil _)
      | cons x xs =>
        rw [hX] at hseg
        cases xs with
        | nil =>
          simp only [List.getLast?_singleton, Option.some.injEq] at hseg
          refine ⟨a :: seg, ?_⟩
          rw [List.cons_append, splitOnNewline_cons_other a (rest ++ [c]) ha x [] hX]
          simp [hseg]
        | cons y ys =>
          refine ⟨seg, ?_⟩
          rw [List.cons_append, splitOnNewline_cons_other a (rest ++ [c]) ha x (y :: ys) hX,
            List.getLast?_cons_cons]
          rw [List.getLast?_cons_cons] at hseg
          exact hseg

/-- Stripping a carriage return does nothing to a segment ending in another
character. -/
theorem stripCR_append_of_ne (l : List Char) (c : Char) (h : c ≠ '\r') :
    stripCR (l ++ [c]) = l ++ [c] := by
  unfold stripCR
  rw [List.getLast?_concat]
  split
  · next heq => exact absurd (by injection heq) h
  · rfl

/-- A terminating newline after a non-newline, non-carriage-return character
changes nothing about the split into lines. -/
theorem rustLines_append_char_newline (s : List Char) (c : Char)
    (hn : c ≠ '\n') (hr : c ≠ '\r') :
    rustLines ((s ++ [c]) ++ ['\n']) = rustLines (s ++ [c]) := by
  obtain ⟨seg, hseg⟩ := splitOnNewline_getLast_append s c hn
  have hne : splitOnNewline (s ++ [c]) ≠ [] := splitOnNewline_ne_nil _
  have hlast : (splitOnNewline (s ++ [c])).getLast hne = seg ++ [c] := by
    have := List.getLast?_eq_getLast (splitOnNewline (s ++ [c])) hne
    rw [this] at hseg
    exact Option.some.inj hseg
  have hdecomp :
      (splitOnNewline (s ++ [c])).dropLast ++ [seg ++ [c]] = splitOnNewline (s ++ [c]) := by
    rw [← hlast]
    exact List.dropLast_append_getLast hne
  unfold rustLines
  rw [splitOnNewline_append_newline, List.dropLast_concat, List.getLast?_concat, hseg]
  cases hy : seg ++ [c] with
  | nil => exact absurd hy (by simp)
  | cons y ys =>
    have hstrip : stripCR (y :: ys) = y :: ys := by
      rw [← hy]
      exact stripCR_append_of_ne seg c hr
    simp only [hy, List.append_nil]
    conv_lhs => rw [← hdecomp, hy]
    simp [hstrip]

/-- C10: a terminating newline never produces an extra record: for input
ending in an ordinary character, appending a final newline leaves the line
split unchanged; in particular the inputs `Part 1` and `Part 1\n` both
succeed with total 0 and no per-line diagnostics. -/
theorem trailing_newline_tolerated :
    (∀ s : List Char, s ≠ [] → s.getLast? ≠ some '\n' → s.getLast? ≠ some '\r' →
      rustLines (s ++ ['\n']) = rustLines s) ∧
    mainRun ("Part 1".toList) = { stdout := ["0"], stderr := [], exitCode := 0 } ∧
    mainRun ("Part 1\n".toList) = { stdout := ["0"], stderr := [], exitCode := 0 } := by
  refine ⟨?_, rfl, rfl⟩
  intro s hne hn hr
  obtain ⟨c, hc⟩ : ∃ c, s.getLast? = some c := by
    cases h : s.getLast? with
    | none => exact absurd (List.getLast?_eq_none_iff.mp h) hne
    | some c => exact ⟨c, rfl⟩
  have hcn : c ≠ '\n' := fun h => hn (by rw [hc, h])
  have hcr : c ≠ '\r' := fun h => hr (by rw [hc, h])
  have hs : s.dropLast ++ [c] = s := by
    have hg : s.getLast hne = c := by
      have := List.getLast?_eq_getLast s hne
      rw [this] at hc
      exact Option.some.inj hc
    rw [← hg]
    exact List.dropLast_append_getLast hne
  rw [← hs]
  exact rustLines_append_char_newline s.dropLast c hcn hcr

/-- C10 witness: the general trailing-newline fact at the concrete
mode-line-only input. -/
theorem trailing_newline_tolerated_witness :
    rustLines ("Part 1".toList ++ ['\n']) = rustLines ("Part 1".toList) :=
  trailing_newline_tolerated.1 ("Part 1".toList) (by decide) (by decide) (by decide)
